import Mathlib

/-!
Shallow embedding of the SoroSusu rotating-savings-circle contract
(`src/src/lib.rs`) and verification of its specification claims.

Modelling conventions:
* `Address` is modelled as `Nat` (Soroban addresses are opaque identities
  with decidable equality).
* `i128` amounts are modelled as unbounded `Int` and `u32` counters as `Nat`:
  no claim depends on wrap-around, and member counts are bounded by 50.
* Each contract entry point is a pure function from the loaded `Circle`
  record to `Except Abort _`; `Abort.contractError e` models
  `panic_with_error!(env, e)` and `Abort.trap` models a plain panic from
  `Option::unwrap` on an out-of-range `Vec` access.
* The host PRNG shuffle of `finalize_circle` is an explicit function
  parameter `sh`; the host contract (the shuffle permutes its input) enters
  theorems as a hypothesis.
* Storage (`read_circle` / `write_circle`) is modelled by `Store` together
  with `execTx`, which commits the whole record exactly once, at the end of
  a successful call, as the source does.
-/

namespace SoroSusu

abbrev Address := Nat

def MAX_MEMBERS : Nat := 50

structure Circle where
  admin : Address
  contribution : Int
  members : List Address
  is_random_queue : Bool
  payout_queue : List Address
  has_received_payout : List Bool
  cycle_number : Nat
  current_payout_index : Nat
  total_volume_distributed : Int
  is_dissolved : Bool
  dissolution_votes : List Address
  contributions_paid : List Int
deriving DecidableEq

inductive Error where
  | CircleNotFound
  | Unauthorized
  | AlreadyJoined
  | MaxMembersReached
  | AlreadyVoted
  | NotMember
  | AlreadyDissolved
  | NotDissolved
deriving DecidableEq

inductive Abort where
  | contractError (e : Error)
  | trap
deriving DecidableEq

instance {E A : Type} [DecidableEq E] [DecidableEq A] :
    DecidableEq (Except E A)
  | .error a, .error b =>
    if h : a = b then .isTrue (by rw [h]) else .isFalse (by simp [h])
  | .error _, .ok _ => .isFalse (by simp)
  | .ok _, .error _ => .isFalse (by simp)
  | .ok a, .ok b =>
    if h : a = b then .isTrue (by rw [h]) else .isFalse (by simp [h])

/-- First index of `target` in a list, mirroring the source's
`for (i, member) in circle.members.iter().enumerate()` search loops. -/
def firstIdx (target : Address) : List Address → Option Nat
  | [] => none
  | a :: rest => if a = target then some 0 else (firstIdx target rest).map (· + 1)

/-- `create_circle` from the source: a fresh record with the given admin
(the invoker), contribution and queue policy. -/
def create_circle (admin : Address) (contribution : Int)
    (is_random_queue : Bool) : Circle :=
  { admin := admin
    contribution := contribution
    members := []
    is_random_queue := is_random_queue
    payout_queue := []
    has_received_payout := []
    cycle_number := 1
    current_payout_index := 0
    total_volume_distributed := 0
    is_dissolved := false
    dissolution_votes := []
    contributions_paid := [] }

/-- `join_circle` from the source. -/
def join_circle (invoker : Address) (c : Circle) : Except Abort Circle :=
  if c.is_dissolved then
    .error (.contractError .AlreadyDissolved)
  else if invoker ∈ c.members then
    .error (.contractError .AlreadyJoined)
  else if MAX_MEMBERS ≤ c.members.length then
    .error (.contractError .MaxMembersReached)
  else
    .ok { c with
      members := c.members ++ [invoker]
      has_received_payout := c.has_received_payout ++ [false]
      contributions_paid := c.contributions_paid ++ [c.contribution] }

/-- `finalize_circle` from the source; `sh` is the host PRNG shuffle. -/
def finalize_circle (sh : List Address → List Address) (invoker : Address)
    (c : Circle) : Except Abort Circle :=
  if invoker ≠ c.admin then
    .error (.contractError .Unauthorized)
  else if c.is_dissolved then
    .error (.contractError .AlreadyDissolved)
  else if c.payout_queue ≠ [] then
    .ok c
  else if c.is_random_queue then
    .ok { c with payout_queue := sh c.members }
  else
    .ok { c with payout_queue := c.members }

/-- `process_payout` from the source. -/
def process_payout (invoker recipient : Address) (c : Circle) :
    Except Abort Circle :=
  if invoker ≠ c.admin then
    .error (.contractError .Unauthorized)
  else if c.is_dissolved then
    .error (.contractError .AlreadyDissolved)
  else
    match firstIdx recipient c.members with
    | none => .error (.contractError .NotMember)
    | some i =>
      match c.has_received_payout[i]? with
      | none => .error .trap
      | some true => .error (.contractError .Unauthorized)
      | some false =>
        .ok { c with
          has_received_payout := c.has_received_payout.set i true
          current_payout_index := c.current_payout_index + 1
          total_volume_distributed :=
            c.total_volume_distributed + c.contribution }

/-- `propose_dissolution` from the source. -/
def propose_dissolution (invoker : Address) (c : Circle) :
    Except Abort Circle :=
  if c.is_dissolved then
    .error (.contractError .AlreadyDissolved)
  else if invoker ∉ c.members then
    .error (.contractError .NotMember)
  else if invoker ∉ c.dissolution_votes then
    .ok { c with dissolution_votes := c.dissolution_votes ++ [invoker] }
  else
    .ok c

/-- `vote_dissolve` from the source. -/
def vote_dissolve (invoker : Address) (c : Circle) : Except Abort Circle :=
  if c.is_dissolved then
    .error (.contractError .AlreadyDissolved)
  else if invoker ∉ c.members then
    .error (.contractError .NotMember)
  else if invoker ∈ c.dissolution_votes then
    .error (.contractError .AlreadyVoted)
  else
    let votes := c.dissolution_votes ++ [invoker]
    .ok { c with
      dissolution_votes := votes
      is_dissolved :=
        if votes.length * 2 > c.members.length then true else c.is_dissolved }

/-- `withdraw_pro_rata` from the source: returns the refundable amount and
the (possibly updated) record; the source only calls `write_circle` when
`refundable > 0`. -/
def withdraw_pro_rata (invoker : Address) (c : Circle) :
    Except Abort (Int × Circle) :=
  if ¬ c.is_dissolved then
    .error (.contractError .NotDissolved)
  else
    match firstIdx invoker c.members with
    | none => .error (.contractError .NotMember)
    | some i =>
      match c.contributions_paid[i]? with
      | none => .error .trap
      | some contributed =>
        match c.has_received_payout[i]? with
        | none => .error .trap
        | some flag =>
          let received : Int := if flag then c.contribution else 0
          let refundable := contributed - received
          if refundable > 0 then
            .ok (refundable,
              { c with contributions_paid := c.contributions_paid.set i 0 })
          else
            .ok (refundable, c)

/-- One mutating contract call on a single circle record. -/
inductive COp where
  | join (invoker : Address)
  | finalize (invoker : Address) (sh : List Address → List Address)
  | payout (invoker recipient : Address)
  | propose (invoker : Address)
  | vote (invoker : Address)
  | withdraw (invoker : Address)

def applyOp : COp → Circle → Except Abort Circle
  | .join invoker, c => join_circle invoker c
  | .finalize invoker sh, c => finalize_circle sh invoker c
  | .payout invoker recipient, c => process_payout invoker recipient c
  | .propose invoker, c => propose_dissolution invoker c
  | .vote invoker, c => vote_dissolve invoker c
  | .withdraw invoker, c => (withdraw_pro_rata invoker c).map Prod.snd

/-- Circle records reachable from `create_circle` by successful calls. -/
inductive Reachable : Circle → Prop
  | created (admin : Address) (contribution : Int) (r : Bool) :
      Reachable (create_circle admin contribution r)
  | step {c c' : Circle} (op : COp) :
      Reachable c → applyOp op c = .ok c' → Reachable c'

/-- Zero or more successful calls leading from one record to another. -/
inductive Steps : Circle → Circle → Prop
  | refl (c : Circle) : Steps c c
  | tail {a b c : Circle} (op : COp) :
      Steps a b → applyOp op b = .ok c → Steps a c

/-! ### Basic facts about `firstIdx` -/

theorem firstIdx_lt_length {t : Address} {l : List Address} {i : Nat}
    (h : firstIdx t l = some i) : i < l.length := by
  induction l generalizing i with
  | nil => simp [firstIdx] at h
  | cons a rest ih =>
    simp only [firstIdx] at h
    split at h
    · cases h; simp
    · rcases Option.map_eq_some'.mp h with ⟨j, hj, rfl⟩
      have := ih hj
      simp only [List.length_cons]
      omega

theorem firstIdx_getElem? {t : Address} {l : List Address} {i : Nat}
    (h : firstIdx t l = some i) : l[i]? = some t := by
  induction l generalizing i with
  | nil => simp [firstIdx] at h
  | cons a rest ih =>
    simp only [firstIdx] at h
    split at h
    · rename_i hat
      cases h
      simpa using hat
    · rcases Option.map_eq_some'.mp h with ⟨j, hj, rfl⟩
      simpa using ih hj

theorem firstIdx_append {t : Address} {l : List Address} {i : Nat}
    (l₂ : List Address) (h : firstIdx t l = some i) :
    firstIdx t (l ++ l₂) = some i := by
  induction l generalizing i with
  | nil => simp [firstIdx] at h
  | cons a rest ih =>
    by_cases hat : a = t
    · simp only [firstIdx, List.cons_append, if_pos hat] at h ⊢
      exact h
    · simp only [firstIdx, List.cons_append, if_neg hat] at h ⊢
      rcases Option.map_eq_some'.mp h with ⟨j, hj, rfl⟩
      show Option.map (· + 1) (firstIdx t (rest ++ l₂)) = some (j + 1)
      rw [ih hj]
      rfl

theorem firstIdx_of_mem {t : Address} {l : List Address} (h : t ∈ l) :
    ∃ i, firstIdx t l = some i := by
  induction l with
  | nil => simp at h
  | cons a rest ih =>
    by_cases hat : a = t
    · exact ⟨0, by simp [firstIdx, hat]⟩
    · have hr : t ∈ rest := by
        rcases List.mem_cons.mp h with h1 | h1
        · exact absurd h1.symm hat
        · exact h1
      rcases ih hr with ⟨j, hj⟩
      exact ⟨j + 1, by simp [firstIdx, hat, hj]⟩

theorem count_true_set {l : List Bool} {i : Nat} (h : l[i]? = some false) :
    (l.set i true).count true = l.count true + 1 := by
  induction l generalizing i with
  | nil => simp at h
  | cons a rest ih =>
    cases i with
    | zero =>
      have ha : a = false := by simpa using h
      subst ha
      simp [List.count_cons]
    | succ j =>
      have hj : rest[j]? = some false := by simpa using h
      simp only [List.set_cons_succ, List.count_cons, ih hj]
      omega

/-! ### Success characterizations of the operations -/

theorem join_ok {invoker : Address} {c c' : Circle}
    (he : join_circle invoker c = .ok c') :
    c.is_dissolved = false ∧ invoker ∉ c.members ∧
    c.members.length < MAX_MEMBERS ∧
    c' = { c with
      members := c.members ++ [invoker]
      has_received_payout := c.has_received_payout ++ [false]
      contributions_paid := c.contributions_paid ++ [c.contribution] } := by
  unfold join_circle at he
  split at he
  · simp at he
  · split at he
    · simp at he
    · split at he
      · simp at he
      · rename_i h1 h2 h3
        refine ⟨by simpa using h1, h2, by omega, ?_⟩
        exact Except.ok.inj he |>.symm

theorem finalize_ok {sh : List Address → List Address} {invoker : Address}
    {c c' : Circle} (he : finalize_circle sh invoker c = .ok c') :
    invoker = c.admin ∧ c.is_dissolved = false ∧
    ((c.payout_queue ≠ [] ∧ c' = c) ∨
     (c.payout_queue = [] ∧ c.is_random_queue = true ∧
       c' = { c with payout_queue := sh c.members }) ∨
     (c.payout_queue = [] ∧ c.is_random_queue = false ∧
       c' = { c with payout_queue := c.members })) := by
  unfold finalize_circle at he
  split at he
  · simp at he
  · rename_i h1
    split at he
    · simp at he
    · rename_i h2
      refine ⟨by simpa using h1, by simpa using h2, ?_⟩
      split at he
      · rename_i h3
        exact Or.inl ⟨h3, (Except.ok.inj he).symm⟩
      · rename_i h3
        split at he
        · rename_i h4
          exact Or.inr (Or.inl ⟨by simpa using h3, h4,
            (Except.ok.inj he).symm⟩)
        · rename_i h4
          exact Or.inr (Or.inr ⟨by simpa using h3, by simpa using h4,
            (Except.ok.inj he).symm⟩)

theorem payout_ok {invoker recipient : Address} {c c' : Circle}
    (he : process_payout invoker recipient c = .ok c') :
    invoker = c.admin ∧ c.is_dissolved = false ∧
    ∃ i, firstIdx recipient c.members = some i ∧
      c.has_received_payout[i]? = some false ∧
      c' = { c with
        has_received_payout := c.has_received_payout.set i true
        current_payout_index := c.current_payout_index + 1
        total_volume_distributed :=
          c.total_volume_distributed + c.contribution } := by
  unfold process_payout at he
  split at he
  · simp at he
  · rename_i h1
    split at he
    · simp at he
    · rename_i h2
      refine ⟨by simpa using h1, by simpa using h2, ?_⟩
      split at he
      · simp at he
      · rename_i i hfi
        split at he
        · simp at he
        · simp at he
        · rename_i hflag
          exact ⟨i, hfi, hflag, (Except.ok.inj he).symm⟩

theorem propose_ok {invoker : Address} {c c' : Circle}
    (he : propose_dissolution invoker c = .ok c') :
    c.is_dissolved = false ∧ invoker ∈ c.members ∧
    ((invoker ∉ c.dissolution_votes ∧
       c' = { c with dissolution_votes := c.dissolution_votes ++ [invoker] }) ∨
     (invoker ∈ c.dissolution_votes ∧ c' = c)) := by
  unfold propose_dissolution at he
  split at he
  · simp at he
  · rename_i h1
    split at he
    · simp at he
    · rename_i h2
      refine ⟨by simpa using h1, by simpa using h2, ?_⟩
      split at he
      · rename_i h3
        exact Or.inl ⟨h3, (Except.ok.inj he).symm⟩
      · rename_i h3
        exact Or.inr ⟨by simpa using h3, (Except.ok.inj he).symm⟩

theorem vote_ok {invoker : Address} {c c' : Circle}
    (he : vote_dissolve invoker c = .ok c') :
    c.is_dissolved = false ∧ invoker ∈ c.members ∧
    invoker ∉ c.dissolution_votes ∧
    c' = { c with
      dissolution_votes := c.dissolution_votes ++ [invoker]
      is_dissolved :=
        if (c.dissolution_votes ++ [invoker]).length * 2 > c.members.length
        then true else c.is_dissolved } := by
  unfold vote_dissolve at he
  split at he
  · simp at he
  · rename_i h1
    split at he
    · simp at he
    · rename_i h2
      split at he
      · simp at he
      · rename_i h3
        exact ⟨by simpa using h1, by simpa using h2, h3,
          (Except.ok.inj he).symm⟩

theorem withdraw_ok {invoker : Address} {c c' : Circle} {amt : Int}
    (he : withdraw_pro_rata invoker c = .ok (amt, c')) :
    c.is_dissolved = true ∧
    ∃ i contributed flag, firstIdx invoker c.members = some i ∧
      c.contributions_paid[i]? = some contributed ∧
      c.has_received_payout[i]? = some flag ∧
      amt = contributed - (if flag then c.contribution else 0) ∧
      ((amt > 0 ∧
         c' = { c with contributions_paid := c.contributions_paid.set i 0 }) ∨
       (amt ≤ 0 ∧ c' = c)) := by
  unfold withdraw_pro_rata at he
  split at he
  · simp at he
  · rename_i h1
    refine ⟨by simpa using h1, ?_⟩
    split at he
    · simp at he
    · rename_i i hfi
      split at he
      · simp at he
      · rename_i contributed hpaid
        split at he
        · simp at he
        · rename_i flag hflag
          split at he <;> rename_i hfl <;> simp only [] at he
          · split at he <;> rename_i hpos
            · have h1 := congrArg Prod.fst (Except.ok.inj he)
              have h2 := congrArg Prod.snd (Except.ok.inj he)
              refine ⟨i, contributed, flag, hfi, hpaid, hflag, ?_,
                Or.inl ⟨by omega, h2.symm⟩⟩
              rw [if_pos hfl]
              exact h1.symm
            · have h1 := congrArg Prod.fst (Except.ok.inj he)
              have h2 := congrArg Prod.snd (Except.ok.inj he)
              refine ⟨i, contributed, flag, hfi, hpaid, hflag, ?_,
                Or.inr ⟨by omega, h2.symm⟩⟩
              rw [if_pos hfl]
              exact h1.symm
          · split at he <;> rename_i hpos
            · have h1 := congrArg Prod.fst (Except.ok.inj he)
              have h2 := congrArg Prod.snd (Except.ok.inj he)
              refine ⟨i, contributed, flag, hfi, hpaid, hflag, ?_,
                Or.inl ⟨by omega, h2.symm⟩⟩
              rw [if_neg hfl]
              exact h1.symm
            · have h1 := congrArg Prod.fst (Except.ok.inj he)
              have h2 := congrArg Prod.snd (Except.ok.inj he)
              refine ⟨i, contributed, flag, hfi, hpaid, hflag, ?_,
                Or.inr ⟨by omega, h2.symm⟩⟩
              rw [if_neg hfl]
              exact h1.symm

/-! ### The inductive state invariant -/

/-- Invariant maintained by every committed operation (spec section 3). The
`paidVals` component records that a member's ledger entry is either the
intact stake or zero (zero only after a strictly positive withdrawal). -/
structure Inv (c : Circle) : Prop where
  lenF : c.has_received_payout.length = c.members.length
  lenP : c.contributions_paid.length = c.members.length
  idx : c.current_payout_index = c.has_received_payout.count true
  vol : c.total_volume_distributed =
    (c.current_payout_index : Int) * c.contribution
  nodup : c.members.Nodup
  paidVals : ∀ i, i < c.members.length →
    c.contributions_paid[i]? = some c.contribution ∨
      (c.contributions_paid[i]? = some 0 ∧ 0 < c.contribution)

theorem inv_create (admin : Address) (contribution : Int) (r : Bool) :
    Inv (create_circle admin contribution r) := by
  refine ⟨rfl, rfl, rfl, by simp [create_circle], by simp [create_circle], ?_⟩
  intro i hi
  simp [create_circle] at hi

theorem inv_join {invoker : Address} {c c' : Circle} (h : Inv c)
    (he : join_circle invoker c = .ok c') : Inv c' := by
  obtain ⟨hd, hm, hlen, rfl⟩ := join_ok he
  refine ⟨?_, ?_, ?_, h.vol, ?_, ?_⟩
  · simp [h.lenF]
  · simp [h.lenP]
  · simp [List.count_append, h.idx]
  · simp only [List.nodup_append, List.nodup_cons, List.nodup_nil,
      List.disjoint_singleton]
    exact ⟨h.nodup, by simp, hm⟩
  · intro i hi
    simp only [List.length_append, List.length_cons, List.length_nil] at hi
    rcases Nat.lt_or_ge i c.members.length with hlt | hge
    · have hbound : i < c.contributions_paid.length := by rw [h.lenP]; exact hlt
      have : (c.contributions_paid ++ [c.contribution])[i]? =
          c.contributions_paid[i]? := by
        rw [List.getElem?_append, if_pos hbound]
      rw [this]
      exact h.paidVals i hlt
    · have hie : i = c.contributions_paid.length := by rw [h.lenP]; omega
      subst hie
      rw [List.getElem?_concat_length]
      exact Or.inl rfl

theorem inv_finalize {sh : List Address → List Address} {invoker : Address}
    {c c' : Circle} (h : Inv c) (he : finalize_circle sh invoker c = .ok c') :
    Inv c' := by
  obtain ⟨ha, hd, hcase⟩ := finalize_ok he
  rcases hcase with ⟨_, rfl⟩ | ⟨_, _, rfl⟩ | ⟨_, _, rfl⟩
  · exact h
  · exact ⟨h.lenF, h.lenP, h.idx, h.vol, h.nodup, h.paidVals⟩
  · exact ⟨h.lenF, h.lenP, h.idx, h.vol, h.nodup, h.paidVals⟩

theorem inv_payout {invoker recipient : Address} {c c' : Circle} (h : Inv c)
    (he : process_payout invoker recipient c = .ok c') : Inv c' := by
  obtain ⟨ha, hd, i, hfi, hflag, rfl⟩ := payout_ok he
  refine ⟨?_, h.lenP, ?_, ?_, h.nodup, h.paidVals⟩
  · simp [List.length_set, h.lenF]
  · simp only
    rw [count_true_set hflag, h.idx]
  · simp only
    rw [h.vol]
    push_cast
    ring

theorem inv_propose {invoker : Address} {c c' : Circle} (h : Inv c)
    (he : propose_dissolution invoker c = .ok c') : Inv c' := by
  obtain ⟨hd, hm, hcase⟩ := propose_ok he
  rcases hcase with ⟨_, rfl⟩ | ⟨_, rfl⟩
  · exact ⟨h.lenF, h.lenP, h.idx, h.vol, h.nodup, h.paidVals⟩
  · exact h

theorem inv_vote {invoker : Address} {c c' : Circle} (h : Inv c)
    (he : vote_dissolve invoker c = .ok c') : Inv c' := by
  obtain ⟨hd, hm, hv, rfl⟩ := vote_ok he
  exact ⟨h.lenF, h.lenP, h.idx, h.vol, h.nodup, h.paidVals⟩

theorem inv_withdraw {invoker : Address} {c c' : Circle} {amt : Int}
    (h : Inv c) (he : withdraw_pro_rata invoker c = .ok (amt, c')) :
    Inv c' := by
  obtain ⟨hd, i, contributed, flag, hfi, hpaid, hflag, hamt, hcase⟩ :=
    withdraw_ok he
  rcases hcase with ⟨hpos, rfl⟩ | ⟨_, rfl⟩
  · have hilt : i < c.members.length := firstIdx_lt_length hfi
    have hctr : 0 < c.contribution := by
      rcases h.paidVals i hilt with hc | ⟨hc, hc0⟩
      · rw [hpaid] at hc
        cases hc
        cases flag with
        | true => rw [if_pos rfl] at hamt; omega
        | false =>
          rw [if_neg (by simp)] at hamt
          omega
      · exact hc0
    refine ⟨h.lenF, ?_, h.idx, h.vol, h.nodup, ?_⟩
    · simp [List.length_set, h.lenP]
    · intro j hj
      by_cases hji : j = i
      · subst hji
        have hjlt : j < c.contributions_paid.length := by rw [h.lenP]; exact hj
        rw [List.getElem?_set_self hjlt]
        exact Or.inr ⟨rfl, hctr⟩
      · rw [List.getElem?_set_ne (by omega)]
        exact h.paidVals j hj
  · exact h

theorem inv_applyOp {op : COp} {c c' : Circle} (h : Inv c)
    (he : applyOp op c = .ok c') : Inv c' := by
  cases op with
  | join invoker => exact inv_join h he
  | finalize invoker sh => exact inv_finalize h he
  | payout invoker recipient => exact inv_payout h he
  | propose invoker => exact inv_propose h he
  | vote invoker => exact inv_vote h he
  | withdraw invoker =>
    simp only [applyOp] at he
    cases hw : withdraw_pro_rata invoker c with
    | error e => rw [hw] at he; simp [Except.map] at he
    | ok p =>
      rw [hw] at he
      simp only [Except.map] at he
      cases he
      exact inv_withdraw h (by rw [hw])

theorem reachable_inv {c : Circle} (h : Reachable c) : Inv c := by
  induction h with
  | created admin contribution r => exact inv_create admin contribution r
  | step op _ he ih => exact inv_applyOp ih he

/-! ### Further step lemmas -/

theorem applyOp_withdraw_ok {invoker : Address} {c c' : Circle}
    (he : applyOp (COp.withdraw invoker) c = .ok c') :
    ∃ amt, withdraw_pro_rata invoker c = .ok (amt, c') := by
  simp only [applyOp] at he
  cases hw : withdraw_pro_rata invoker c with
  | error e => rw [hw] at he; simp [Except.map] at he
  | ok p =>
    obtain ⟨a, b⟩ := p
    rw [hw] at he
    simp only [Except.map] at he
    cases he
    exact ⟨a, rfl⟩

/-- No successful operation ever clears the `is_dissolved` flag. -/
theorem step_dissolved_mono {op : COp} {c c' : Circle}
    (he : applyOp op c = .ok c') (hd : c.is_dissolved = true) :
    c'.is_dissolved = true := by
  cases op with
  | join invoker =>
    obtain ⟨hd0, _, _, _⟩ := join_ok he
    rw [hd0] at hd; cases hd
  | finalize invoker sh =>
    obtain ⟨_, hd0, _⟩ := finalize_ok he
    rw [hd0] at hd; cases hd
  | payout invoker recipient =>
    obtain ⟨_, hd0, _⟩ := payout_ok he
    rw [hd0] at hd; cases hd
  | propose invoker =>
    obtain ⟨hd0, _, _⟩ := propose_ok he
    rw [hd0] at hd; cases hd
  | vote invoker =>
    obtain ⟨hd0, _, _, _⟩ := vote_ok he
    rw [hd0] at hd; cases hd
  | withdraw invoker =>
    obtain ⟨amt, hw⟩ := applyOp_withdraw_ok he
    obtain ⟨_, i, contributed, flag, _, _, _, _, hcase⟩ := withdraw_ok hw
    rcases hcase with ⟨_, rfl⟩ | ⟨_, rfl⟩ <;> exact hd

/-- Only `vote_dissolve` can turn the `is_dissolved` flag on. -/
theorem step_dissolved_only_vote {op : COp} {c c' : Circle}
    (he : applyOp op c = .ok c') (hd : c'.is_dissolved = true) :
    c.is_dissolved = true ∨ ∃ v, op = COp.vote v := by
  cases op with
  | join invoker =>
    obtain ⟨_, _, _, rfl⟩ := join_ok he
    exact Or.inl hd
  | finalize invoker sh =>
    obtain ⟨_, _, hcase⟩ := finalize_ok he
    rcases hcase with ⟨_, rfl⟩ | ⟨_, _, rfl⟩ | ⟨_, _, rfl⟩ <;> exact Or.inl hd
  | payout invoker recipient =>
    obtain ⟨_, _, i, _, _, rfl⟩ := payout_ok he
    exact Or.inl hd
  | propose invoker =>
    obtain ⟨_, _, hcase⟩ := propose_ok he
    rcases hcase with ⟨_, rfl⟩ | ⟨_, rfl⟩ <;> exact Or.inl hd
  | vote invoker => exact Or.inr ⟨invoker, rfl⟩
  | withdraw invoker =>
    obtain ⟨amt, hw⟩ := applyOp_withdraw_ok he
    obtain ⟨_, i, contributed, flag, _, _, _, _, hcase⟩ := withdraw_ok hw
    rcases hcase with ⟨_, rfl⟩ | ⟨_, rfl⟩ <;> exact Or.inl hd

/-! ### Behavior on an already-dissolved circle -/

theorem join_dissolved {invoker : Address} {c : Circle}
    (hd : c.is_dissolved = true) :
    join_circle invoker c = .error (.contractError .AlreadyDissolved) := by
  unfold join_circle
  rw [if_pos hd]

theorem propose_dissolved {invoker : Address} {c : Circle}
    (hd : c.is_dissolved = true) :
    propose_dissolution invoker c =
      .error (.contractError .AlreadyDissolved) := by
  unfold propose_dissolution
  rw [if_pos hd]

theorem vote_dissolved {invoker : Address} {c : Circle}
    (hd : c.is_dissolved = true) :
    vote_dissolve invoker c = .error (.contractError .AlreadyDissolved) := by
  unfold vote_dissolve
  rw [if_pos hd]

theorem finalize_dissolved_admin {sh : List Address → List Address}
    {c : Circle} (hd : c.is_dissolved = true) :
    finalize_circle sh c.admin c =
      .error (.contractError .AlreadyDissolved) := by
  unfold finalize_circle
  rw [if_neg (by simp), if_pos hd]

theorem finalize_not_admin {sh : List Address → List Address}
    {invoker : Address} {c : Circle} (hne : invoker ≠ c.admin) :
    finalize_circle sh invoker c = .error (.contractError .Unauthorized) := by
  unfold finalize_circle
  rw [if_pos hne]

theorem payout_dissolved {recipient : Address} {c : Circle}
    (hd : c.is_dissolved = true) :
    process_payout c.admin recipient c =
      .error (.contractError .AlreadyDissolved) := by
  unfold process_payout
  rw [if_neg (by simp), if_pos hd]

theorem payout_not_admin {invoker recipient : Address} {c : Circle}
    (hne : invoker ≠ c.admin) :
    process_payout invoker recipient c =
      .error (.contractError .Unauthorized) := by
  unfold process_payout
  rw [if_pos hne]

/-! ### Exactly-once payout machinery -/

/-- `recipient` has already been paid: the member slot found by the
source's linear search carries a `true` payout flag. -/
def PaidOut (recipient : Address) (c : Circle) : Prop :=
  ∃ i, firstIdx recipient c.members = some i ∧
    c.has_received_payout[i]? = some true

theorem paidOut_of_payout {invoker recipient : Address} {c c' : Circle}
    (he : process_payout invoker recipient c = .ok c') :
    PaidOut recipient c' := by
  obtain ⟨_, _, i, hfi, hflag, rfl⟩ := payout_ok he
  have hlt : i < c.has_received_payout.length :=
    (List.getElem?_eq_some.mp hflag).1
  exact ⟨i, hfi, by simpa using List.getElem?_set_self hlt⟩

theorem paidOut_step {recipient : Address} {op : COp} {c c' : Circle}
    (hp : PaidOut recipient c) (he : applyOp op c = .ok c') :
    PaidOut recipient c' := by
  obtain ⟨i, hfi, hflag⟩ := hp
  have hlt : i < c.has_received_payout.length :=
    (List.getElem?_eq_some.mp hflag).1
  cases op with
  | join invoker =>
    obtain ⟨_, _, _, rfl⟩ := join_ok he
    refine ⟨i, firstIdx_append _ hfi, ?_⟩
    simpa [List.getElem?_append, hlt] using hflag
  | finalize invoker sh =>
    obtain ⟨_, _, hcase⟩ := finalize_ok he
    rcases hcase with ⟨_, rfl⟩ | ⟨_, _, rfl⟩ | ⟨_, _, rfl⟩ <;>
      exact ⟨i, hfi, hflag⟩
  | payout invoker r₂ =>
    obtain ⟨_, _, j, hfj, hflj, rfl⟩ := payout_ok he
    refine ⟨i, hfi, ?_⟩
    by_cases hij : j = i
    · subst hij
      simpa using List.getElem?_set_self hlt
    · simpa [List.getElem?_set_ne hij] using hflag
  | propose invoker =>
    obtain ⟨_, _, hcase⟩ := propose_ok he
    rcases hcase with ⟨_, rfl⟩ | ⟨_, rfl⟩ <;> exact ⟨i, hfi, hflag⟩
  | vote invoker =>
    obtain ⟨_, _, _, rfl⟩ := vote_ok he
    exact ⟨i, hfi, hflag⟩
  | withdraw invoker =>
    obtain ⟨amt, hw⟩ := applyOp_withdraw_ok he
    obtain ⟨_, j, contributed, flag, _, _, _, _, hcase⟩ := withdraw_ok hw
    rcases hcase with ⟨_, rfl⟩ | ⟨_, rfl⟩ <;> exact ⟨i, hfi, hflag⟩

theorem paidOut_steps {recipient : Address} {c c' : Circle}
    (hp : PaidOut recipient c) (hs : Steps c c') :
    PaidOut recipient c' := by
  induction hs with
  | refl => exact hp
  | tail op _ he ih => exact paidOut_step ih he

theorem payout_fails_of_paidOut (invoker : Address) {recipient : Address}
    {c : Circle} (hp : PaidOut recipient c) :
    (∀ c', process_payout invoker recipient c ≠ .ok c') ∧
    (invoker = c.admin → c.is_dissolved = false →
      process_payout invoker recipient c =
        .error (.contractError .Unauthorized)) := by
  obtain ⟨i, hfi, hflag⟩ := hp
  constructor
  · intro c' hok
    obtain ⟨_, _, j, hfj, hflj, _⟩ := payout_ok hok
    rw [hfi] at hfj
    cases hfj
    rw [hflag] at hflj
    cases hflj
  · intro ha hd
    simp [process_payout, ha, hd, hfi, hflag]

/-! ### Storage level: load, validate, mutate, commit -/

/-- The instance storage, keyed by circle id. -/
def Store := Nat → Option Circle

def writeStore (s : Store) (id : Nat) (c : Circle) : Store :=
  fun j => if j = id then some c else s j

/-- One storage-level transaction (`read_circle`, the entry point body,
then `write_circle` on success). -/
inductive TxOp where
  | join (invoker : Address) (id : Nat)
  | finalize (invoker : Address) (sh : List Address → List Address) (id : Nat)
  | payout (invoker recipient : Address) (id : Nat)
  | propose (invoker : Address) (id : Nat)
  | vote (invoker : Address) (id : Nat)
  | withdraw (invoker : Address) (id : Nat)

/-- Runs a transaction: returns the resulting store and the abort reason,
if any. Each source entry point calls `write_circle` exactly once, after
all validation, so a transaction commits exactly the successful record. -/
def execTx : TxOp → Store → Store × Option Abort
  | .join invoker id, s =>
    match s id with
    | none => (s, some (.contractError .CircleNotFound))
    | some c =>
      match join_circle invoker c with
      | .error e => (s, some e)
      | .ok c' => (writeStore s id c', none)
  | .finalize invoker sh id, s =>
    match s id with
    | none => (s, some (.contractError .CircleNotFound))
    | some c =>
      match finalize_circle sh invoker c with
      | .error e => (s, some e)
      | .ok c' => (writeStore s id c', none)
  | .payout invoker recipient id, s =>
    match s id with
    | none => (s, some (.contractError .CircleNotFound))
    | some c =>
      match process_payout invoker recipient c with
      | .error e => (s, some e)
      | .ok c' => (writeStore s id c', none)
  | .propose invoker id, s =>
    match s id with
    | none => (s, some (.contractError .CircleNotFound))
    | some c =>
      match propose_dissolution invoker c with
      | .error e => (s, some e)
      | .ok c' => (writeStore s id c', none)
  | .vote invoker id, s =>
    match s id with
    | none => (s, some (.contractError .CircleNotFound))
    | some c =>
      match vote_dissolve invoker c with
      | .error e => (s, some e)
      | .ok c' => (writeStore s id c', none)
  | .withdraw invoker id, s =>
    match s id with
    | none => (s, some (.contractError .CircleNotFound))
    | some c =>
      match withdraw_pro_rata invoker c with
      | .error e => (s, some e)
      | .ok (_, c') => (writeStore s id c', none)

def emptyStore : Store := fun _ => none

/-- Shared helper: an aborted transaction leaves the store untouched. -/
theorem execTx_abort_unchanged (op : TxOp) (s : Store) {e : Abort}
    (h : (execTx op s).2 = some e) : (execTx op s).1 = s := by
  cases op with
  | join invoker id =>
    cases hs : s id with
    | none => simp [execTx, hs]
    | some c =>
      cases hj : join_circle invoker c with
      | error e' => simp [execTx, hs, hj]
      | ok c' =>
        simp only [execTx, hs, hj] at h
        cases h
  | finalize invoker sh id =>
    cases hs : s id with
    | none => simp [execTx, hs]
    | some c =>
      cases hj : finalize_circle sh invoker c with
      | error e' => simp [execTx, hs, hj]
      | ok c' =>
        simp only [execTx, hs, hj] at h
        cases h
  | payout invoker recipient id =>
    cases hs : s id with
    | none => simp [execTx, hs]
    | some c =>
      cases hj : process_payout invoker recipient c with
      | error e' => simp [execTx, hs, hj]
      | ok c' =>
        simp only [execTx, hs, hj] at h
        cases h
  | propose invoker id =>
    cases hs : s id with
    | none => simp [execTx, hs]
    | some c =>
      cases hj : propose_dissolution invoker c with
      | error e' => simp [execTx, hs, hj]
      | ok c' =>
        simp only [execTx, hs, hj] at h
        cases h
  | vote invoker id =>
    cases hs : s id with
    | none => simp [execTx, hs]
    | some c =>
      cases hj : vote_dissolve invoker c with
      | error e' => simp [execTx, hs, hj]
      | ok c' =>
        simp only [execTx, hs, hj] at h
        cases h
  | withdraw invoker id =>
    cases hs : s id with
    | none => simp [execTx, hs]
    | some c =>
      cases hj : withdraw_pro_rata invoker c with
      | error e' => simp [execTx, hs, hj]
      | ok p =>
        obtain ⟨a, c'⟩ := p
        simp only [execTx, hs, hj] at h
        cases h

/-! ### Concrete example circles (used by witnesses and counterexamples) -/

/-- The record committed by `create_circle` with admin `0`, contribution
`5`, non-random queue, after member `1` joins. -/
def circleB : Circle :=
  { admin := 0
    contribution := 5
    members := [1]
    is_random_queue := false
    payout_queue := []
    has_received_payout := [false]
    cycle_number := 1
    current_payout_index := 0
    total_volume_distributed := 0
    is_dissolved := false
    dissolution_votes := []
    contributions_paid := [5] }

/-- `circleB` after `process_payout` to member `1`. -/
def circleC : Circle :=
  { circleB with
    has_received_payout := [true]
    current_payout_index := 1
    total_volume_distributed := 5 }

/-- `circleC` after `vote_dissolve` by member `1` (1 of 1 is a strict
majority, so the circle dissolves). -/
def circleD : Circle :=
  { circleC with dissolution_votes := [1], is_dissolved := true }

/-- `circleB` after a (non-random) `finalize_circle`. -/
def circleBQ : Circle := { circleB with payout_queue := [1] }

theorem reachable_circleB : Reachable circleB :=
  Reachable.step (COp.join 1) (Reachable.created 0 5 false) (by decide)

theorem reachable_circleC : Reachable circleC :=
  Reachable.step (COp.payout 0 1) reachable_circleB (by decide)

theorem reachable_circleD : Reachable circleD :=
  Reachable.step (COp.vote 1) reachable_circleC (by decide)

/-! ### Claim theorems -/

/-- C2: in every reachable circle record (i.e., after every committed
`create_circle` / `join_circle` / `finalize_circle` / `process_payout` /
`propose_dissolution` / `vote_dissolve` / `withdraw_pro_rata`), the three
member-indexed vectors have equal length, `current_payout_index` equals
the number of `true` entries of `has_received_payout`, and
`total_volume_distributed` equals `current_payout_index * contribution`. -/
theorem C2_state_invariants (c : Circle) (h : Reachable c) :
    c.members.length = c.has_received_payout.length ∧
    c.members.length = c.contributions_paid.length ∧
    c.current_payout_index = c.has_received_payout.count true ∧
    c.total_volume_distributed =
      (c.current_payout_index : Int) * c.contribution :=
  ⟨(reachable_inv h).lenF.symm, (reachable_inv h).lenP.symm,
    (reachable_inv h).idx, (reachable_inv h).vol⟩

/-- Witness for C2 at the concrete reachable record `circleC`. -/
theorem C2_state_invariants_witness :
    Reachable circleC ∧
    (circleC.members.length = circleC.has_received_payout.length ∧
     circleC.members.length = circleC.contributions_paid.length ∧
     circleC.current_payout_index = circleC.has_received_payout.count true ∧
     circleC.total_volume_distributed =
       (circleC.current_payout_index : Int) * circleC.contribution) :=
  ⟨reachable_circleC, C2_state_invariants circleC reachable_circleC⟩

/-- C3: a successful `vote_dissolve` appends the caller to
`dissolution_votes`, and the resulting record is dissolved iff the
enlarged vote set is a strict majority of the members (a tie does not
dissolve); moreover `vote_dissolve` is the only operation that ever sets
`is_dissolved`. -/
theorem C3_vote_majority (invoker : Address) (c c' : Circle)
    (he : vote_dissolve invoker c = .ok c') :
    c'.dissolution_votes = c.dissolution_votes ++ [invoker] ∧
    (c'.is_dissolved = true ↔
      2 * c'.dissolution_votes.length > c.members.length) ∧
    (∀ (op : COp) (c₁ c₂ : Circle), applyOp op c₁ = .ok c₂ →
      c₂.is_dissolved = true →
      c₁.is_dissolved = true ∨ ∃ v, op = COp.vote v) := by
  obtain ⟨hd, hm, hv, rfl⟩ := vote_ok he
  refine ⟨rfl, ?_, fun op c₁ c₂ hop hdis =>
    step_dissolved_only_vote hop hdis⟩
  show (if (c.dissolution_votes ++ [invoker]).length * 2 > c.members.length
      then true else c.is_dissolved) = true ↔
    2 * (c.dissolution_votes ++ [invoker]).length > c.members.length
  rw [hd]
  by_cases hc :
      (c.dissolution_votes ++ [invoker]).length * 2 > c.members.length
  · rw [if_pos hc]
    constructor
    · intro
      omega
    · intro
      rfl
  · rw [if_neg hc]
    constructor
    · intro h0
      cases h0
    · intro hgt
      exact absurd hgt (by omega)

/-- Witness for C3: member `1` of the one-member `circleC` votes; the
vote is appended and 2·1 > 1 is a strict majority, so it dissolves. -/
theorem C3_vote_majority_witness :
    vote_dissolve 1 circleC = .ok circleD ∧
    (circleD.dissolution_votes = circleC.dissolution_votes ++ [1] ∧
     (circleD.is_dissolved = true ↔
       2 * circleD.dissolution_votes.length > circleC.members.length)) :=
  ⟨rfl, (C3_vote_majority 1 circleC circleD rfl).1,
    (C3_vote_majority 1 circleC circleD rfl).2.1⟩

/-- C7: `propose_dissolution` by a member of a non-dissolved circle always
succeeds, appends the caller to `dissolution_votes` only when not already
present, and never sets `is_dissolved`, regardless of the size of the
resulting vote set. -/
theorem C7_propose_idempotent (invoker : Address) (c : Circle)
    (hd : c.is_dissolved = false) (hm : invoker ∈ c.members) :
    propose_dissolution invoker c =
      .ok { c with dissolution_votes :=
        if invoker ∈ c.dissolution_votes then c.dissolution_votes
        else c.dissolution_votes ++ [invoker] } ∧
    (∀ c', propose_dissolution invoker c = .ok c' →
      c'.is_dissolved = false) := by
  constructor
  · unfold propose_dissolution
    rw [if_neg (by simp [hd]), if_neg (by simp [hm])]
    by_cases hv : invoker ∈ c.dissolution_votes
    · rw [if_neg (by simp [hv]), if_pos hv]
    · rw [if_pos hv, if_neg hv]
  · intro c' he
    obtain ⟨_, _, hcase⟩ := propose_ok he
    rcases hcase with ⟨_, rfl⟩ | ⟨_, rfl⟩
    · exact hd
    · exact hd

/-- Witness for C7: member `1` of `circleB` proposes dissolution; the vote
is recorded and the circle is not dissolved. -/
theorem C7_propose_idempotent_witness :
    circleB.is_dissolved = false ∧ 1 ∈ circleB.members ∧
    (propose_dissolution 1 circleB =
       .ok { circleB with dissolution_votes :=
         if 1 ∈ circleB.dissolution_votes then circleB.dissolution_votes
         else circleB.dissolution_votes ++ [1] } ∧
     (∀ c', propose_dissolution 1 circleB = .ok c' →
       c'.is_dissolved = false)) :=
  ⟨rfl, by decide, C7_propose_idempotent 1 circleB rfl (by decide)⟩

/-- C8: whenever a transaction aborts with any error, the store — in
particular the addressed circle record — is exactly as it was before the
call. -/
theorem C8_atomic_on_abort (op : TxOp) (s : Store) (e : Abort)
    (h : (execTx op s).2 = some e) : (execTx op s).1 = s :=
  execTx_abort_unchanged op s h

/-- Witness for C8: `join_circle` on a missing id aborts with
`CircleNotFound` and leaves the empty store unchanged. -/
theorem C8_atomic_on_abort_witness :
    (execTx (TxOp.join 1 0) emptyStore).2 =
      some (.contractError .CircleNotFound) ∧
    (execTx (TxOp.join 1 0) emptyStore).1 = emptyStore :=
  ⟨rfl, C8_atomic_on_abort (TxOp.join 1 0) emptyStore
    (.contractError .CircleNotFound) rfl⟩

/-- C9 (amended): once `is_dissolved` is `true`, `join_circle`,
`propose_dissolution` and `vote_dissolve` fail with `AlreadyDissolved`;
`finalize_circle` and `process_payout` fail with `AlreadyDissolved` when
called by the admin and with `Unauthorized` for any other caller (their
admin check runs first); every aborted transaction leaves the store
unchanged; and no successful operation ever clears `is_dissolved`. -/
theorem C9_dissolution_terminal (c : Circle) (hd : c.is_dissolved = true) :
    (∀ invoker, join_circle invoker c =
      .error (.contractError .AlreadyDissolved)) ∧
    (∀ invoker, propose_dissolution invoker c =
      .error (.contractError .AlreadyDissolved)) ∧
    (∀ invoker, vote_dissolve invoker c =
      .error (.contractError .AlreadyDissolved)) ∧
    (∀ sh, finalize_circle sh c.admin c =
      .error (.contractError .AlreadyDissolved)) ∧
    (∀ sh invoker, invoker ≠ c.admin → finalize_circle sh invoker c =
      .error (.contractError .Unauthorized)) ∧
    (∀ recipient, process_payout c.admin recipient c =
      .error (.contractError .AlreadyDissolved)) ∧
    (∀ invoker recipient, invoker ≠ c.admin →
      process_payout invoker recipient c =
        .error (.contractError .Unauthorized)) ∧
    (∀ (op : TxOp) (s : Store) (e : Abort),
      (execTx op s).2 = some e → (execTx op s).1 = s) ∧
    (∀ (op : COp) (c₁ c₂ : Circle), applyOp op c₁ = .ok c₂ →
      c₁.is_dissolved = true → c₂.is_dissolved = true) :=
  ⟨fun _ => join_dissolved hd, fun _ => propose_dissolved hd,
   fun _ => vote_dissolved hd, fun _ => finalize_dissolved_admin hd,
   fun _ _ hne => finalize_not_admin hne,
   fun _ => payout_dissolved hd,
   fun _ _ hne => payout_not_admin hne,
   fun op s _ h => execTx_abort_unchanged op s h,
   fun _ _ _ hop hd1 => step_dissolved_mono hop hd1⟩

/-- Witness for C9 at the concrete reachable dissolved record `circleD`. -/
theorem C9_dissolution_terminal_witness :
    circleD.is_dissolved = true ∧
    ((∀ invoker, join_circle invoker circleD =
       .error (.contractError .AlreadyDissolved)) ∧
     (∀ invoker, propose_dissolution invoker circleD =
       .error (.contractError .AlreadyDissolved)) ∧
     (∀ invoker, vote_dissolve invoker circleD =
       .error (.contractError .AlreadyDissolved)) ∧
     (∀ sh, finalize_circle sh circleD.admin circleD =
       .error (.contractError .AlreadyDissolved)) ∧
     (∀ sh invoker, invoker ≠ circleD.admin →
       finalize_circle sh invoker circleD =
         .error (.contractError .Unauthorized)) ∧
     (∀ recipient, process_payout circleD.admin recipient circleD =
       .error (.contractError .AlreadyDissolved)) ∧
     (∀ invoker recipient, invoker ≠ circleD.admin →
       process_payout invoker recipient circleD =
         .error (.contractError .Unauthorized)) ∧
     (∀ (op : TxOp) (s : Store) (e : Abort),
       (execTx op s).2 = some e → (execTx op s).1 = s) ∧
     (∀ (op : COp) (c₁ c₂ : Circle), applyOp op c₁ = .ok c₂ →
       c₁.is_dissolved = true → c₂.is_dissolved = true)) :=
  ⟨rfl, C9_dissolution_terminal circleD rfl⟩

/-- C9 counterexample: on the reachable dissolved record `circleD`
(admin `0`), `finalize_circle` called by the non-admin `1` fails with
`Unauthorized`, not `AlreadyDissolved`, because the admin check precedes
the dissolution check. -/
theorem C9_counterexample :
    Reachable circleD ∧ circleD.is_dissolved = true ∧
    finalize_circle (fun l => l) 1 circleD =
      .error (.contractError .Unauthorized) ∧
    Error.Unauthorized ≠ Error.AlreadyDissolved :=
  ⟨reachable_circleD, rfl, rfl, by decide⟩

/-- C1 (amended): after a successful `process_payout` for a recipient, no
later `process_payout` naming the same recipient can succeed: every such
call fails — with `Unauthorized` whenever the caller is the admin and the
circle is not dissolved — and any failing call leaves the stored record
unchanged. -/
theorem C1_exactly_once (inv₁ recipient : Address) (c c₁ c₂ : Circle)
    (h1 : process_payout inv₁ recipient c = .ok c₁)
    (hs : Steps c₁ c₂) :
    (∀ inv₂ c₃, process_payout inv₂ recipient c₂ ≠ .ok c₃) ∧
    (∀ inv₂, ∃ e, process_payout inv₂ recipient c₂ = .error e) ∧
    (∀ inv₂, inv₂ = c₂.admin → c₂.is_dissolved = false →
      process_payout inv₂ recipient c₂ =
        .error (.contractError .Unauthorized)) ∧
    (∀ inv₂ (s : Store) (id : Nat) (e : Abort),
      (execTx (TxOp.payout inv₂ recipient id) s).2 = some e →
      (execTx (TxOp.payout inv₂ recipient id) s).1 = s) := by
  have hp₂ : PaidOut recipient c₂ :=
    paidOut_steps (paidOut_of_payout h1) hs
  refine ⟨fun inv₂ => (payout_fails_of_paidOut inv₂ hp₂).1, ?_,
    fun inv₂ => (payout_fails_of_paidOut inv₂ hp₂).2,
    fun inv₂ s id e h => execTx_abort_unchanged _ s h⟩
  intro inv₂
  cases hr : process_payout inv₂ recipient c₂ with
  | error e => exact ⟨e, rfl⟩
  | ok c₃ => exact absurd hr ((payout_fails_of_paidOut inv₂ hp₂).1 c₃)

/-- Witness for C1: paying member `1` of `circleB` succeeds once; with an
empty trace afterwards, a second `process_payout` for `1` fails. -/
theorem C1_exactly_once_witness :
    process_payout 0 1 circleB = .ok circleC ∧ Steps circleC circleC ∧
    ((∀ inv₂ c₃, process_payout inv₂ 1 circleC ≠ .ok c₃) ∧
     (∀ inv₂, ∃ e, process_payout inv₂ 1 circleC = .error e) ∧
     (∀ inv₂, inv₂ = circleC.admin → circleC.is_dissolved = false →
       process_payout inv₂ 1 circleC =
         .error (.contractError .Unauthorized)) ∧
     (∀ inv₂ (s : Store) (id : Nat) (e : Abort),
       (execTx (TxOp.payout inv₂ 1 id) s).2 = some e →
       (execTx (TxOp.payout inv₂ 1 id) s).1 = s)) :=
  ⟨rfl, Steps.refl circleC,
    C1_exactly_once 0 1 circleB circleC circleC rfl (Steps.refl circleC)⟩

/-- C1 counterexample: along the reachable trace `circleB` →
(`process_payout` to `1`) → `circleC` → (`vote_dissolve` by `1`) →
`circleD`, a later `process_payout` naming the already-paid recipient `1`
fails with `AlreadyDissolved`, not `Unauthorized` as the claim states. -/
theorem C1_counterexample :
    Reachable circleB ∧
    process_payout 0 1 circleB = .ok circleC ∧
    vote_dissolve 1 circleC = .ok circleD ∧
    process_payout 0 1 circleD =
      .error (.contractError .AlreadyDissolved) ∧
    Abort.contractError Error.AlreadyDissolved ≠
      Abort.contractError Error.Unauthorized :=
  ⟨reachable_circleB, rfl, rfl, rfl, by decide⟩

/-- Closed-form evaluation of `withdraw_pro_rata` for a dissolved circle
and a caller found at member index `i`. -/
theorem withdraw_eval (caller : Address) (c : Circle) (i : Nat)
    (hd : c.is_dissolved = true) (hi : firstIdx caller c.members = some i)
    (hiP : i < c.contributions_paid.length)
    (hiF : i < c.has_received_payout.length) :
    withdraw_pro_rata caller c =
      if c.contributions_paid.getD i 0 -
          (if c.has_received_payout.getD i false then c.contribution else 0) >
          0 then
        .ok (c.contributions_paid.getD i 0 -
          (if c.has_received_payout.getD i false then c.contribution else 0),
          { c with contributions_paid := c.contributions_paid.set i 0 })
      else
        .ok (c.contributions_paid.getD i 0 -
          (if c.has_received_payout.getD i false then c.contribution else 0),
          c) := by
  have hpaid : c.contributions_paid[i]? =
      some (c.contributions_paid.getD i 0) := by
    rw [List.getD_eq_getElem?_getD, List.getElem?_eq_getElem hiP]
    rfl
  have hflag : c.has_received_payout[i]? =
      some (c.has_received_payout.getD i false) := by
    rw [List.getD_eq_getElem?_getD, List.getElem?_eq_getElem hiF]
    rfl
  unfold withdraw_pro_rata
  rw [if_neg (by simp [hd])]
  simp only [hi, hpaid, hflag]

/-- C4: for a dissolved circle and a caller found at member index `i`,
`withdraw_pro_rata` returns
`contributions_paid[i] - (contribution if has_received_payout[i] else 0)`;
when that amount is positive it zeroes `contributions_paid[i]` and an
immediately repeated call returns `0`; when it is non-positive the record
is not mutated. -/
theorem C4_withdraw_refund (c : Circle) (caller : Address) (i : Nat)
    (hr : Reachable c) (hd : c.is_dissolved = true)
    (hi : firstIdx caller c.members = some i) :
    ∃ amt c', withdraw_pro_rata caller c = .ok (amt, c') ∧
      amt = c.contributions_paid.getD i 0 -
        (if c.has_received_payout.getD i false then c.contribution else 0) ∧
      (amt > 0 →
        c' = { c with contributions_paid := c.contributions_paid.set i 0 } ∧
        withdraw_pro_rata caller c' = .ok (0, c')) ∧
      (amt ≤ 0 → c' = c) := by
  have hinv := reachable_inv hr
  have hilt : i < c.members.length := firstIdx_lt_length hi
  have hiltP : i < c.contributions_paid.length := by
    rw [hinv.lenP]
    exact hilt
  have hiltF : i < c.has_received_payout.length := by
    rw [hinv.lenF]
    exact hilt
  have hpaid : c.contributions_paid[i]? =
      some (c.contributions_paid.getD i 0) := by
    rw [List.getD_eq_getElem?_getD, List.getElem?_eq_getElem hiltP]
    rfl
  have heval := withdraw_eval caller c i hd hi hiltP hiltF
  by_cases hpos : c.contributions_paid.getD i 0 -
      (if c.has_received_payout.getD i false then c.contribution else 0) > 0
  · -- the refund is positive: under the reachable-state invariant the
    -- caller's flag must be false and the ledger entry positive
    have hkey : c.has_received_payout.getD i false = false := by
      rcases hinv.paidVals i hilt with hcv | ⟨hcv, hc0⟩
      · rw [hpaid] at hcv
        injection hcv with hcve
        cases hbv : c.has_received_payout.getD i false
        · rfl
        · rw [hbv] at hpos
          rw [hcve] at hpos
          simp at hpos
      · rw [hpaid] at hcv
        injection hcv with hcve
        rw [hcve] at hpos
        cases hbv : c.has_received_payout.getD i false <;>
          simp only [hbv] at hpos <;> simp at hpos
        exact absurd hc0 (by omega)
    refine ⟨_, _, by rw [heval, if_pos hpos], rfl, fun _ => ⟨rfl, ?_⟩,
      fun hle => absurd hpos (by omega)⟩
    have hiP2 : i <
        (c.contributions_paid.set i 0).length := by
      rw [List.length_set]
      exact hiltP
    have heval2 := withdraw_eval caller
      { c with contributions_paid := c.contributions_paid.set i 0 } i
      hd hi hiP2 hiltF
    have hp0 : (c.contributions_paid.set i 0).getD i 0 = 0 := by
      rw [List.getD_eq_getElem?_getD, List.getElem?_set_self hiltP]
      rfl
    rw [heval2]
    rw [show ({ c with contributions_paid :=
        c.contributions_paid.set i 0 } : Circle).contributions_paid =
      c.contributions_paid.set i 0 from rfl] at *
    rw [hp0, hkey]
    norm_num
  · exact ⟨_, _, by rw [heval, if_neg hpos], rfl,
      fun hgt => absurd hgt hpos, fun _ => rfl⟩

/-- Witness for C4 at the reachable dissolved record `circleD`: member `1`
already received the payout, so the refund is `5 - 5 = 0` and nothing is
mutated. -/
theorem C4_withdraw_refund_witness :
    Reachable circleD ∧ circleD.is_dissolved = true ∧
    firstIdx 1 circleD.members = some 0 ∧
    (∃ amt c', withdraw_pro_rata 1 circleD = .ok (amt, c') ∧
      amt = circleD.contributions_paid.getD 0 0 -
        (if circleD.has_received_payout.getD 0 false
         then circleD.contribution else 0) ∧
      (amt > 0 →
        c' = { circleD with
          contributions_paid := circleD.contributions_paid.set 0 0 } ∧
        withdraw_pro_rata 1 c' = .ok (0, c')) ∧
      (amt ≤ 0 → c' = circleD)) :=
  ⟨reachable_circleD, rfl, rfl,
    C4_withdraw_refund circleD 1 0 reachable_circleD rfl rfl⟩

/-- C5: a successful `finalize_circle` on a circle whose queue was empty
stores a queue that is a permutation of `members` at that moment — of the
same length — under both queue policies (for the random policy, given the
host guarantee that the PRNG shuffle permutes its input); with
`is_random_queue = false` the queue equals `members` verbatim. -/
theorem C5_queue_permutation (sh : List Address → List Address)
    (invoker : Address) (c c' : Circle)
    (hq : c.payout_queue = [])
    (hsh : c.is_random_queue = true → (sh c.members).Perm c.members)
    (he : finalize_circle sh invoker c = .ok c') :
    c'.payout_queue.Perm c.members ∧
    c'.payout_queue.length = c.members.length ∧
    (c.is_random_queue = false → c'.payout_queue = c.members) := by
  obtain ⟨ha, hd, hcase⟩ := finalize_ok he
  rcases hcase with ⟨hne, rfl⟩ | ⟨_, hr, rfl⟩ | ⟨_, _, rfl⟩
  · exact absurd hq hne
  · have hp := hsh hr
    refine ⟨hp, hp.length_eq, fun hf => ?_⟩
    rw [hr] at hf
    cases hf
  · exact ⟨List.Perm.refl _, rfl, fun _ => rfl⟩

/-- Witness for C5: finalizing `circleB` (non-random, queue empty) stores
`payout_queue = members = [1]`. -/
theorem C5_queue_permutation_witness :
    circleB.payout_queue = [] ∧
    (circleB.is_random_queue = true →
      ((fun l => l) circleB.members).Perm circleB.members) ∧
    finalize_circle (fun l => l) 0 circleB = .ok circleBQ ∧
    (circleBQ.payout_queue.Perm circleB.members ∧
     circleBQ.payout_queue.length = circleB.members.length ∧
     (circleB.is_random_queue = false →
       circleBQ.payout_queue = circleB.members)) :=
  ⟨rfl, by decide, rfl,
    C5_queue_permutation (fun l => l) 0 circleB circleBQ rfl (by decide) rfl⟩

/-- C6: `finalize_circle` is idempotent: with a non-empty queue an admin
call on a non-dissolved circle succeeds without mutating the record, and
running finalize again right after a successful finalize (with any host
shuffles satisfying the permutation contract) returns the same record. -/
theorem C6_finalize_idempotent (sh sh₂ : List Address → List Address)
    (invoker : Address) (c c' : Circle)
    (hsh : c.is_random_queue = true → (sh c.members).Perm c.members)
    (hsh₂ : c.is_random_queue = true → (sh₂ c.members).Perm c.members) :
    (c.payout_queue ≠ [] → c.is_dissolved = false →
      finalize_circle sh c.admin c = .ok c) ∧
    (finalize_circle sh invoker c = .ok c' →
      finalize_circle sh₂ invoker c' = .ok c') := by
  constructor
  · intro hne hd
    unfold finalize_circle
    rw [if_neg (by simp), if_neg (by simp [hd]), if_pos hne]
  · intro he
    obtain ⟨ha, hd, hcase⟩ := finalize_ok he
    rcases hcase with ⟨hne, rfl⟩ | ⟨hq, hr, rfl⟩ | ⟨hq, hr, rfl⟩
    · unfold finalize_circle
      rw [if_neg (by simp [ha]), if_neg (by simp [hd]), if_pos hne]
    · by_cases hm : c.members = []
      · have h1 : (sh c.members).Perm [] := by
          rw [← hm]
          exact hsh hr
        have h2 : (sh₂ c.members).Perm [] := by
          rw [← hm]
          exact hsh₂ hr
        simp [finalize_circle, ha, hd, hr, h1.eq_nil, h2.eq_nil]
      · have hq' : sh c.members ≠ [] := by
          intro h0
          apply hm
          have hlen := (hsh hr).length_eq
          rw [h0] at hlen
          simp only [List.length_nil] at hlen
          exact List.length_eq_zero.mp hlen.symm
        unfold finalize_circle
        rw [if_neg (by simp [ha]), if_neg (by simp [hd]), if_pos hq']
    · by_cases hm : c.members = []
      · simp [finalize_circle, ha, hd, hr, hm]
      · unfold finalize_circle
        rw [if_neg (by simp [ha]), if_neg (by simp [hd]), if_pos hm]

/-- Witness for C6 at `circleBQ` (queue already `[1]`): re-finalizing is a
successful no-op and repeating it returns the same record. -/
theorem C6_finalize_idempotent_witness :
    (circleBQ.is_random_queue = true →
      ((fun l => l) circleBQ.members).Perm circleBQ.members) ∧
    ((circleBQ.payout_queue ≠ [] → circleBQ.is_dissolved = false →
       finalize_circle (fun l => l) circleBQ.admin circleBQ = .ok circleBQ) ∧
     (finalize_circle (fun l => l) 0 circleBQ = .ok circleBQ →
       finalize_circle (fun l => l) 0 circleBQ = .ok circleBQ)) :=
  ⟨by decide,
    C6_finalize_idempotent (fun l => l) (fun l => l) 0 circleBQ circleBQ
      (by decide) (by decide)⟩

/-- Helper for C10: a circle with no members, an empty queue and not
dissolved accepts a join, and a subsequent finalize recomputes the queue
over the enlarged member set. -/
theorem refinalize_core (sh₂ : List Address → List Address) (m : Address)
    (c₁ : Circle) (hm1 : c₁.members = []) (hq1 : c₁.payout_queue = [])
    (hd1 : c₁.is_dissolved = false) :
    ∀ c₂, join_circle m c₁ = .ok c₂ →
      c₂.members = [m] ∧ c₂.payout_queue = [] ∧
      finalize_circle sh₂ c₂.admin c₂ =
        .ok { c₂ with payout_queue :=
          if c₂.is_random_queue then sh₂ c₂.members else c₂.members } ∧
      ((sh₂ c₂.members).Perm c₂.members → ∀ c₃,
        finalize_circle sh₂ c₂.admin c₂ = .ok c₃ →
        m ∈ c₃.payout_queue) := by
  intro c₂ hj
  obtain ⟨_, _, _, rfl⟩ := join_ok hj
  have hmem : c₁.members ++ [m] = [m] := by rw [hm1]; rfl
  refine ⟨hmem, hq1, ?_, ?_⟩
  · unfold finalize_circle
    rw [if_neg (by simp), if_neg (by simp [hd1]), if_neg (by simp [hq1])]
    cases hb : c₁.is_random_queue
    · rw [if_neg (by simp [hb]), if_neg (by simp [hb])]
    · rw [if_pos (by simp [hb]), if_pos (by simp [hb])]
  · intro hperm c₃ hf3
    obtain ⟨_, _, hcase⟩ := finalize_ok hf3
    rcases hcase with ⟨hne, rfl⟩ | ⟨_, _, rfl⟩ | ⟨_, _, rfl⟩
    · exact absurd hq1 hne
    · have : m ∈ c₁.members ++ [m] := by simp
      exact hperm.mem_iff.mpr this
    · simp

/-- C10: finalizing a circle with zero members commits an empty
`payout_queue`, so the non-empty guard does not engage for it: a member
who joins after such a finalize is included by a later finalize, whose
queue is recomputed over the enlarged member set. -/
theorem C10_refinalize_after_empty (sh sh₂ : List Address → List Address)
    (m : Address) (c c₁ : Circle)
    (hm : c.members = []) (hq : c.payout_queue = [])
    (hd : c.is_dissolved = false)
    (hsh : c.is_random_queue = true → (sh c.members).Perm c.members)
    (he : finalize_circle sh c.admin c = .ok c₁) :
    c₁.payout_queue = [] ∧
    ∀ c₂, join_circle m c₁ = .ok c₂ →
      c₂.members = [m] ∧ c₂.payout_queue = [] ∧
      finalize_circle sh₂ c₂.admin c₂ =
        .ok { c₂ with payout_queue :=
          if c₂.is_random_queue then sh₂ c₂.members else c₂.members } ∧
      ((sh₂ c₂.members).Perm c₂.members → ∀ c₃,
        finalize_circle sh₂ c₂.admin c₂ = .ok c₃ →
        m ∈ c₃.payout_queue) := by
  obtain ⟨_, _, hcase⟩ := finalize_ok he
  have hstep : c₁.members = [] ∧ c₁.payout_queue = [] ∧
      c₁.is_dissolved = false := by
    rcases hcase with ⟨hne, rfl⟩ | ⟨_, hr, rfl⟩ | ⟨_, _, rfl⟩
    · exact absurd hq hne
    · have h1 : (sh c.members).Perm [] := by
        rw [← hm]
        exact hsh hr
      exact ⟨hm, h1.eq_nil, hd⟩
    · exact ⟨hm, hm, hd⟩
  exact ⟨hstep.2.1, refinalize_core sh₂ m c₁ hstep.1 hstep.2.1 hstep.2.2⟩

/-- Witness for C10: finalizing the empty non-random circle
`create_circle 0 5 false` commits an empty queue; member `1` then joins
and a second finalize builds the queue `[1]` over the enlarged set. -/
theorem C10_refinalize_after_empty_witness :
    (create_circle 0 5 false).members = [] ∧
    (create_circle 0 5 false).payout_queue = [] ∧
    (create_circle 0 5 false).is_dissolved = false ∧
    finalize_circle (fun l => l) 0 (create_circle 0 5 false) =
      .ok (create_circle 0 5 false) ∧
    ((create_circle 0 5 false).payout_queue = [] ∧
     ∀ c₂, join_circle 1 (create_circle 0 5 false) = .ok c₂ →
       c₂.members = [1] ∧ c₂.payout_queue = [] ∧
       finalize_circle (fun l => l) c₂.admin c₂ =
         .ok { c₂ with payout_queue :=
           if c₂.is_random_queue then (fun l => l) c₂.members
           else c₂.members } ∧
       (((fun l => l) c₂.members).Perm c₂.members → ∀ c₃,
         finalize_circle (fun l => l) c₂.admin c₂ = .ok c₃ →
         1 ∈ c₃.payout_queue)) :=
  ⟨rfl, rfl, rfl, rfl,
    C10_refinalize_after_empty (fun l => l) (fun l => l) 1
      (create_circle 0 5 false) (create_circle 0 5 false)
      rfl rfl rfl (by decide) rfl⟩

end SoroSusu
